import Mathlib

/-!
# Verification of `autobackup.py` against its specification

Shallow embedding of the recursive move-and-reconcile program in
`src/autobackup.py`.  Paths are modelled as lists of path segments
(`Path := List String`); the filesystem is a partial map from paths to
nodes (`FS := Path → Option Node`).  The pure helper functions
(`isSubFolder`, `skippedFolderPath`, the keep-both name allocation) and
the effectful functions (`moveFile`, `backupFiles`, `startBackup`) are
translated function by function; filesystem effects become explicit
state passing, and Python exceptions become `Except PyError`.

Modelling conventions:
  * `Path.resolve()` is modelled by `resolve`, which normalises `"."`
    and `".."` segments (symbolic links are not modelled).
  * `scandir` enumerates the entries of a source directory; since a
    function-valued filesystem cannot be enumerated, the directory
    listing that `backupFiles` walks is supplied as a `List SrcEntry`
    snapshot, mirroring the single-threaded walk of the live tree.
  * `Path.mkdir(parents=True)` is modelled as total idempotent creation
    of the directory and its missing ancestors (`mkdirAll`); the
    `FileExistsError` that lines 134-137 catch is therefore a no-op,
    matching the `try/except: pass` in the source.
  * `shutil.move` removes the source path and writes its node at the
    destination path, after creating the destination's parent chain
    (`moveFile`, lines 74-78).
  * The Python `None` returned by a fall-through of `skippedFolderPath`
    (lines 81-87) is `Option.none`; using it with the `/` operator
    (lines 138 and 148) raises `TypeError`, modelled as
    `PyError.typeError`.
-/

namespace Autobackup

/-- A filesystem path, as the list of its segments from the root. -/
abbrev Path := List String

/-- A filesystem node: a regular file with (abstract) content, or a directory. -/
inductive Node where
  | file (content : Nat)
  | dir
deriving DecidableEq

/-- The filesystem: a partial map from paths to nodes. -/
def FS := Path → Option Node

/-- `Path.exists()`: something (file or directory) is present at `p`. -/
def FS.exists (fs : FS) (p : Path) : Bool :=
  (fs p).isSome

/-- `mkdir(exist_ok=True, parents=True)`: create `p` and every missing
ancestor as a directory; existing nodes are left untouched. -/
def mkdirAll (fs : FS) (p : Path) : FS :=
  fun q => if q.isPrefixOf p && (fs q).isNone then some Node.dir else fs q

/-- `moveFile` (autobackup.py lines 74-78): create the destination's
parent chain, then `shutil.move` the source node to the destination. -/
def moveFile (fs : FS) (source destination : Path) : FS :=
  let fs1 := mkdirAll fs destination.dropLast
  fun p =>
    if p = destination then fs1 source
    else if p = source then none
    else fs1 p

/-- `shutil.rmtree`: delete the tree rooted at `p`. -/
def rmtree (fs : FS) (p : Path) : FS :=
  fun q => if p.isPrefixOf q then none else fs q

/-- Append a suffix string to the last segment of a path, modelling
`Path(str(p.as_posix()) + suffixText)` (autobackup.py line 85). -/
def withNameSuffix : Path → String → Path
  | [], s => [s]
  | [last], s => [last ++ s]
  | a :: b :: rest, s => a :: withNameSuffix (b :: rest) s

/-- `skippedFolderPath` (autobackup.py lines 81-87): the first
`P.skipped{i}`, `i` in `range(1, 100)`, that does not exist; Python
falls off the end and returns `None` when every candidate exists. -/
def skippedFolderPath (fs : FS) (folderToBackup : Path) : Option Path :=
  (List.range' 1 99).findSome? fun i =>
    let skippedFolder := withNameSuffix folderToBackup (".skipped" ++ toString i)
    if fs.exists skippedFolder then none else some skippedFolder

/-- Position of the last `'.'` in a list of characters, if any. -/
def lastDotPos : List Char → Option Nat
  | [] => none
  | c :: cs =>
    match lastDotPos cs with
    | some i => some (i + 1)
    | none => if c = '.' then some 0 else none

/-- `PurePath.stem` and `PurePath.suffix` of a file name: split at the
last dot, provided it is neither the leading nor the trailing character
(pathlib's rule); otherwise the suffix is empty. -/
def splitExt (fileName : String) : String × String :=
  let cs := fileName.toList
  match lastDotPos cs with
  | some i =>
    if 0 < i && i + 1 < cs.length then
      (String.mk (cs.take i), String.mk (cs.drop i))
    else (fileName, "")
  | none => (fileName, "")

/-- The candidate file name `'{:s} {:n}{:s}'.format(stem, i, suffix)`
of autobackup.py line 115. -/
def keepBothName (fileName : String) (i : Nat) : String :=
  (splitExt fileName).1 ++ " " ++ toString i ++ (splitExt fileName).2

/-- The name allocation inlined in `keepBothFiles` (autobackup.py lines
112-119): the plain destination if free, otherwise the first free
`"{stem} {i}{suffix}"` for `i` in `range(2, 100)`; `none` when every
candidate exists (the Python loop then falls through doing nothing). -/
def keepBothTarget (fs : FS) (fileName : String) (destinationPath : Path) : Option Path :=
  let fullDestination := destinationPath ++ [fileName]
  if fs.exists fullDestination then
    (List.range' 2 98).findSome? fun i =>
      let keepBothFilesDestination := destinationPath ++ [keepBothName fileName i]
      if fs.exists keepBothFilesDestination then none else some keepBothFilesDestination
  else some fullDestination

/-- `keepBothFiles` (autobackup.py lines 110-121): move the source file
to the allocated keep-both target; when allocation is exhausted the
loop completes without a `break` and nothing happens. -/
def keepBothFiles (fs : FS) (sourceFile : Path) (destinationPath : Path) : FS :=
  match keepBothTarget fs (sourceFile.getLast?.getD "") destinationPath with
  | some keepBothFilesDestination => moveFile fs sourceFile keepBothFilesDestination
  | none => fs

/-- One step of `Path.resolve()`: `"."` is dropped, `".."` pops the last
resolved segment (staying put at the root), any other segment is pushed.
The accumulator holds the resolved segments in reverse order. -/
def resolveStep (acc : List String) (s : String) : List String :=
  if s = "." then acc
  else if s = ".." then acc.drop 1
  else s :: acc

/-- `Path.resolve()` on a segment list: normalise `"."`/`".."` segments
(symbolic links are not modelled). -/
def resolve (p : Path) : Path :=
  (p.foldl resolveStep []).reverse

/-- `isSubFolder` (autobackup.py lines 63-71):
`pathToCheck.resolve().is_relative_to(root.resolve())`, i.e. the
resolved root is a segment-wise prefix of the resolved candidate. -/
def isSubFolder (root : Path) (pathToCheck : Path) : Bool :=
  (resolve root).isPrefixOf (resolve pathToCheck)

/-- The Python exceptions that the modelled code can raise:
`TypeError`, from applying `/` to the `None` returned by an exhausted
`skippedFolderPath` (autobackup.py lines 138 and 148). -/
inductive PyError where
  | typeError
deriving DecidableEq

/-- A directory entry of the source tree, as enumerated by `scandir`:
a regular file (with abstract content) or a subdirectory with its own
listing. -/
inductive SrcEntry where
  | file (entryName : String) (content : Nat)
  | dir (entryName : String) (children : List SrcEntry)

/-- `DirEntry.name`. -/
def SrcEntry.name : SrcEntry → String
  | .file n _ => n
  | .dir n _ => n

mutual

/-- The body of the `for sourceFile in scandir(sourcePath)` loop of
`backupFiles` for one entry (autobackup.py lines 129-151), returning the
filesystem after the entry is disposed of.  The recursive call on a
subdirectory (line 138) re-enters `backupFiles`, whose
destination-creation prologue (lines 125-126) is inlined here as the
`if FS.exists fs1 childDest` step.  A `none` quarantine path models the
`None` that an exhausted `skippedFolderPath` produced; using it with
`/` raises `TypeError`.

The two functions below are mutually recursive: `processEntry` handles
one entry, `processEntries` runs the loop over a listing. -/
def processEntry (fileExistsAction : String) (filesToIgnore : List String)
    (sourceFile : SrcEntry) (sourcePath destPath : Path)
    (skippedFolder : Option Path) (fs : FS) : Except PyError FS :=
  if sourceFile.name ∈ filesToIgnore then .ok fs  -- lines 130-132
  else
    match sourceFile with
    | .dir dname children =>
      -- lines 134-137: create the mirrored subdirectory
      let childDest := destPath ++ [dname]
      let fs1 := mkdirAll fs childDest
      match skippedFolder with
      | none => .error .typeError  -- line 138: None / sourceFile.name
      | some q =>
        -- line 138: recursive backupFiles call; lines 125-126 inlined
        let fs2 := if FS.exists fs1 childDest then fs1 else mkdirAll fs1 childDest
        match processEntries fileExistsAction filesToIgnore children
            (sourcePath ++ [dname]) childDest (some (q ++ [dname])) fs2 with
        | .error e => .error e
        | .ok fs3 =>
          -- lines 139-140: unconditional forced delete of the source subtree
          .ok (rmtree fs3 (sourcePath ++ [dname]))
    | .file fname _ =>
      let fullDestination := destPath ++ [fname]
      if fileExistsAction = "skip" then
        if fs.exists fullDestination then
          match skippedFolder with
          | none => .error .typeError  -- line 148: None / sourceFile.name
          | some q =>
            .ok (moveFile fs (sourcePath ++ [fname]) (q ++ [fname]))
        else
          .ok (moveFile fs (sourcePath ++ [fname]) fullDestination)
      else if fileExistsAction = "keep_both" then
        .ok (keepBothFiles fs (sourcePath ++ [fname]) destPath)
      else
        -- no case of the `match` statement applies: silently do nothing
        .ok fs

/-- The `for` loop of `backupFiles` (autobackup.py lines 128-152):
process the listed entries in order, threading the filesystem; a raised
exception aborts the loop. -/
def processEntries (fileExistsAction : String) (filesToIgnore : List String)
    (entries : List SrcEntry) (sourcePath destPath : Path)
    (skippedFolder : Option Path) (fs : FS) : Except PyError FS :=
  match entries with
  | [] => .ok fs
  | sourceFile :: rest =>
    match processEntry fileExistsAction filesToIgnore sourceFile
        sourcePath destPath skippedFolder fs with
    | .error e => .error e
    | .ok fs1 =>
      processEntries fileExistsAction filesToIgnore rest sourcePath destPath
        skippedFolder fs1

end

/-- `backupFiles` (autobackup.py lines 124-152): ensure the destination
directory exists (lines 125-126), then walk the source listing. -/
def backupFiles (fileExistsAction : String) (filesToIgnore : List String)
    (entries : List SrcEntry) (sourcePath destPath : Path)
    (skippedFolder : Option Path) (fs : FS) : Except PyError FS :=
  let fs0 := if fs.exists destPath then fs else mkdirAll fs destPath
  processEntries fileExistsAction filesToIgnore entries sourcePath destPath skippedFolder fs0

/-- `BackupFolder` (autobackup.py lines 19-24): one configured job.
The relative source and destination are segment lists, joined to the
roots by `++` (modelling `Path(root, relative)`). -/
structure BackupFolder where
  source : Path
  destination : Path
  fileExistsAction : String

/-- `startBackup` (autobackup.py lines 90-107): for each job, validate
source and destination against their roots with `isSubFolder`; invalid
jobs are logged and skipped, a missing source folder is skipped
silently, and otherwise the job's quarantine path is allocated and
`backupFiles` runs.  There is no `try/except` around the per-job work,
so an exception propagates and aborts the remaining jobs.  The
`scandir` listing of each job's source folder is supplied alongside the
job (the function-valued filesystem cannot be enumerated). -/
def startBackup (sourceRootPath destinationRootPath : Path)
    (filesToIgnore : List String) :
    List (BackupFolder × List SrcEntry) → FS → Except PyError FS
  | [], fs => .ok fs
  | (folder, entries) :: rest, fs =>
    let folderToBackup := sourceRootPath ++ folder.source
    let destPath := destinationRootPath ++ folder.destination
    if isSubFolder sourceRootPath folderToBackup
        && isSubFolder destinationRootPath destPath then
      if fs.exists folderToBackup then
        match backupFiles folder.fileExistsAction filesToIgnore entries
            folderToBackup destPath (skippedFolderPath fs folderToBackup) fs with
        | .error e => .error e
        | .ok fs2 =>
          startBackup sourceRootPath destinationRootPath filesToIgnore rest fs2
      else
        startBackup sourceRootPath destinationRootPath filesToIgnore rest fs
    else
      -- logging.error(...): the job is skipped and the run continues
      startBackup sourceRootPath destinationRootPath filesToIgnore rest fs

/-! ## Helper lemmas about the filesystem primitives -/

theorem mkdirAll_some {fs : FS} {t p : Path} {n : Node} (h : fs p = some n) :
    mkdirAll fs t p = some n := by
  simp [mkdirAll, h]

theorem mkdirAll_none_of {fs : FS} {t p : Path} (hp : p.isPrefixOf t = false)
    (h : fs p = none) : mkdirAll fs t p = none := by
  simp [mkdirAll, hp, h]

theorem mkdirAll_exists_ancestor {fs : FS} {t p : Path}
    (h : p.isPrefixOf t = true) : FS.exists (mkdirAll fs t) p = true := by
  simp only [mkdirAll, FS.exists, h, Bool.true_and]
  cases hfp : fs p <;> simp [hfp]

theorem moveFile_some {fs : FS} {s d p : Path} {n : Node}
    (hd : p ≠ d) (hs : p ≠ s) (h : fs p = some n) :
    moveFile fs s d p = some n := by
  simp [moveFile, hd, hs, mkdirAll_some h]

theorem moveFile_none {fs : FS} {s d p : Path}
    (hd : p ≠ d) (hdp : p.isPrefixOf d.dropLast = false) (h : fs p = none) :
    moveFile fs s d p = none := by
  by_cases hs : p = s
  · subst hs
    simp [moveFile, hd]
  · simp [moveFile, hd, hs, mkdirAll_none_of hdp h]

theorem rmtree_eq_of_not_prefix {fs : FS} {t p : Path}
    (h : t.isPrefixOf p = false) : rmtree fs t p = fs p := by
  simp [rmtree, h]

theorem rmtree_eq_none {fs : FS} {t p : Path} (h : t.isPrefixOf p = true) :
    rmtree fs t p = none := by
  simp [rmtree, h]

theorem rmtree_none {fs : FS} {t p : Path} (h : fs p = none) :
    rmtree fs t p = none := by
  unfold rmtree
  split <;> simp [h]

/-! ## Prefix utilities -/

theorem isPrefixOf_false_mono {a p : Path} (b : Path)
    (h : a.isPrefixOf p = false) : (a ++ b).isPrefixOf p = false := by
  rw [Bool.eq_false_iff] at h ⊢
  intro hab
  exact h (by
    rw [List.isPrefixOf_iff_prefix] at hab ⊢
    exact (List.prefix_append a b).trans hab)

theorem not_prefix_concat {p t : Path} {x : String}
    (h1 : t.isPrefixOf p = false) (h2 : p.isPrefixOf t = false) :
    p.isPrefixOf (t ++ [x]) = false := by
  rw [Bool.eq_false_iff] at h1 h2 ⊢
  intro hpt
  rw [List.isPrefixOf_iff_prefix] at hpt
  rcases (by simpa [List.concat_eq_append] using
      List.prefix_concat_iff.mp hpt : p = t ++ [x] ∨ p <+: t) with h | h
  · exact h1 (by
      rw [List.isPrefixOf_iff_prefix, h]
      exact List.prefix_append t [x])
  · exact h2 (List.isPrefixOf_iff_prefix.mpr h)

theorem eq_of_append_singleton_isPrefixOf {a : Path} {x y : String}
    (h : (a ++ [x]).isPrefixOf (a ++ [y]) = true) : x = y := by
  rw [List.isPrefixOf_iff_prefix] at h
  have hlen : (a ++ [y]).length ≤ (a ++ [x]).length := by simp
  have := List.IsPrefix.eq_of_length_le h hlen
  simpa using this

theorem not_prefix_trans_left {a b p : Path}
    (hab : a.isPrefixOf b = false) (hba : b.isPrefixOf a = false)
    (hbp : b.isPrefixOf p = true) : a.isPrefixOf p = false := by
  rw [Bool.eq_false_iff] at hab hba ⊢
  rw [List.isPrefixOf_iff_prefix] at hbp
  intro hap
  rw [List.isPrefixOf_iff_prefix] at hap
  rcases List.prefix_or_prefix_of_prefix hap hbp with h | h
  · exact hab (List.isPrefixOf_iff_prefix.mpr h)
  · exact hba (List.isPrefixOf_iff_prefix.mpr h)

theorem not_rev_prefix_trans {a b p : Path}
    (hab : b.isPrefixOf a = false) (hbp : b.isPrefixOf p = true) :
    p.isPrefixOf a = false := by
  rw [Bool.eq_false_iff] at hab ⊢
  rw [List.isPrefixOf_iff_prefix] at hbp
  intro hpa
  rw [List.isPrefixOf_iff_prefix] at hpa
  exact hab (List.isPrefixOf_iff_prefix.mpr (hbp.trans hpa))

/-! ## Lemmas about `List.findSome?` -/

theorem findSome?_eq_none_of {α β : Type} {l : List α} {f : α → Option β}
    (h : ∀ a ∈ l, f a = none) : l.findSome? f = none := by
  induction l with
  | nil => rfl
  | cons a l ih =>
    rw [List.findSome?_cons, h a (List.mem_cons_self a l)]
    exact ih fun a ha => h a (List.mem_cons_of_mem _ ha)

theorem findSome?_prop {α β : Type} {l : List α} {f : α → Option β}
    {P : β → Prop} (h : ∀ a ∈ l, ∀ b, f a = some b → P b) {v : β}
    (hv : l.findSome? f = some v) : P v := by
  induction l with
  | nil => simp [List.findSome?] at hv
  | cons a l ih =>
    rw [List.findSome?_cons] at hv
    cases hfa : f a with
    | some b =>
      rw [hfa] at hv
      simp only [Option.some.injEq] at hv
      exact hv ▸ h a (List.mem_cons_self a l) b hfa
    | none =>
      rw [hfa] at hv
      exact ih (fun a ha => h a (List.mem_cons_of_mem _ ha)) hv

theorem findSome?_range'_first {β : Type} {f : Nat → Option β} {v : β} :
    ∀ (a n j : Nat), a ≤ j → j < a + n → f j = some v →
    (∀ i, a ≤ i → i < j → f i = none) →
    (List.range' a n).findSome? f = some v := by
  intro a n
  induction n generalizing a with
  | zero => intro j h1 h2; omega
  | succ n ih =>
    intro j h1 h2 hj hlt
    rw [List.range'_succ, List.findSome?_cons]
    by_cases ha : a = j
    · rw [ha, hj]
    · rw [hlt a le_rfl (by omega)]
      exact ih (a + 1) j (by omega) (by omega) hj fun i hi hij => hlt i (by omega) hij

theorem isPrefixOf_self (l : Path) : l.isPrefixOf l = true := by
  simp [List.isPrefixOf_iff_prefix]

theorem isPrefixOf_append_singleton (t : Path) (x : String) :
    t.isPrefixOf (t ++ [x]) = true := by
  rw [List.isPrefixOf_iff_prefix]
  exact List.prefix_append t [x]

theorem ne_of_append_not_prefixOf {t p : Path} {x : String}
    (h : t.isPrefixOf p = false) : p ≠ t ++ [x] := by
  intro hp
  rw [hp, isPrefixOf_append_singleton] at h
  simp at h

theorem ne_self_of_not_prefixOf {t p : Path} (h : t.isPrefixOf p = false) :
    p ≠ t := by
  intro hp
  rw [hp, isPrefixOf_self] at h
  simp at h

/-! ## Facts about the keep-both name allocation -/

theorem keepBothTarget_shape {fs : FS} {fileName : String} {D t : Path}
    (h : keepBothTarget fs fileName D = some t) : ∃ s, t = D ++ [s] := by
  unfold keepBothTarget at h
  by_cases hex : FS.exists fs (D ++ [fileName]) = true
  · rw [if_pos hex] at h
    refine findSome?_prop (P := fun t => ∃ s, t = D ++ [s]) ?_ h
    intro i _ b hb
    cases hx : FS.exists fs (D ++ [keepBothName fileName i]) with
    | true => simp [hx] at hb
    | false =>
      simp only [hx, Bool.false_eq_true, if_false, Option.some.injEq] at hb
      exact ⟨keepBothName fileName i, hb.symm⟩
  · rw [if_neg hex, Option.some.injEq] at h
    exact ⟨fileName, h.symm⟩

theorem keepBothTarget_not_exists {fs : FS} {fileName : String} {D t : Path}
    (h : keepBothTarget fs fileName D = some t) : FS.exists fs t = false := by
  unfold keepBothTarget at h
  by_cases hex : FS.exists fs (D ++ [fileName]) = true
  · rw [if_pos hex] at h
    refine findSome?_prop (P := fun t => FS.exists fs t = false) ?_ h
    intro i _ b hb
    cases hx : FS.exists fs (D ++ [keepBothName fileName i]) with
    | true => simp [hx] at hb
    | false =>
      simp only [hx, Bool.false_eq_true, if_false, Option.some.injEq] at hb
      rw [← hb]
      exact hx
  · rw [if_neg hex, Option.some.injEq] at h
    rw [← h]
    simpa using hex

/-! ## Unfolding equations for the per-entry dispatch -/

theorem processEntry_ignored {a : String} {ig : List String} {e : SrcEntry}
    {sp dp : Path} {quar : Option Path} {fs : FS} (hig : e.name ∈ ig) :
    processEntry a ig e sp dp quar fs = .ok fs := by
  unfold processEntry
  rw [if_pos hig]

theorem processEntry_dir_none {a : String} {ig : List String} {dname : String}
    {children : List SrcEntry} {sp dp : Path} {fs : FS} (hig : dname ∉ ig) :
    processEntry a ig (.dir dname children) sp dp none fs = .error .typeError := by
  unfold processEntry
  rw [if_neg (by simpa [SrcEntry.name] using hig)]

theorem processEntry_dir_eq {a : String} {ig : List String} {dname : String}
    {children : List SrcEntry} {sp dp q : Path} {fs : FS} (hig : dname ∉ ig) :
    processEntry a ig (.dir dname children) sp dp (some q) fs =
      match processEntries a ig children (sp ++ [dname]) (dp ++ [dname])
          (some (q ++ [dname])) (mkdirAll fs (dp ++ [dname])) with
      | .error e => .error e
      | .ok fs3 => .ok (rmtree fs3 (sp ++ [dname])) := by
  unfold processEntry
  rw [if_neg (by simpa [SrcEntry.name] using hig)]
  dsimp only
  rw [mkdirAll_exists_ancestor (isPrefixOf_self (dp ++ [dname]))]
  simp

theorem processEntry_file_skip_coll_none {ig : List String} {fname : String}
    {c : Nat} {sp dp : Path} {fs : FS} (hig : fname ∉ ig)
    (hex : FS.exists fs (dp ++ [fname]) = true) :
    processEntry "skip" ig (.file fname c) sp dp none fs = .error .typeError := by
  unfold processEntry
  rw [if_neg (by simpa [SrcEntry.name] using hig)]
  simp [hex]

theorem processEntry_file_skip_coll {ig : List String} {fname : String}
    {c : Nat} {sp dp q : Path} {fs : FS} (hig : fname ∉ ig)
    (hex : FS.exists fs (dp ++ [fname]) = true) :
    processEntry "skip" ig (.file fname c) sp dp (some q) fs =
      .ok (moveFile fs (sp ++ [fname]) (q ++ [fname])) := by
  unfold processEntry
  rw [if_neg (by simpa [SrcEntry.name] using hig)]
  simp [hex]

theorem processEntry_file_skip_free {ig : List String} {fname : String}
    {c : Nat} {sp dp : Path} {quar : Option Path} {fs : FS} (hig : fname ∉ ig)
    (hex : FS.exists fs (dp ++ [fname]) = false) :
    processEntry "skip" ig (.file fname c) sp dp quar fs =
      .ok (moveFile fs (sp ++ [fname]) (dp ++ [fname])) := by
  unfold processEntry
  rw [if_neg (by simpa [SrcEntry.name] using hig)]
  simp [hex]

theorem processEntry_file_keep {ig : List String} {fname : String}
    {c : Nat} {sp dp : Path} {quar : Option Path} {fs : FS} (hig : fname ∉ ig) :
    processEntry "keep_both" ig (.file fname c) sp dp quar fs =
      .ok (keepBothFiles fs (sp ++ [fname]) dp) := by
  unfold processEntry
  rw [if_neg (by simpa [SrcEntry.name] using hig)]
  simp

theorem processEntry_file_other {a : String} {ig : List String} {fname : String}
    {c : Nat} {sp dp : Path} {quar : Option Path} {fs : FS} (hig : fname ∉ ig)
    (h1 : a ≠ "skip") (h2 : a ≠ "keep_both") :
    processEntry a ig (.file fname c) sp dp quar fs = .ok fs := by
  unfold processEntry
  rw [if_neg (by simpa [SrcEntry.name] using hig)]
  simp [h1, h2]

theorem processEntries_nil {a : String} {ig : List String} {sp dp : Path}
    {quar : Option Path} {fs : FS} :
    processEntries a ig [] sp dp quar fs = .ok fs := rfl

theorem processEntries_cons {a : String} {ig : List String} {e : SrcEntry}
    {rest : List SrcEntry} {sp dp : Path} {quar : Option Path} {fs : FS} :
    processEntries a ig (e :: rest) sp dp quar fs =
      match processEntry a ig e sp dp quar fs with
      | .error err => .error err
      | .ok fs1 => processEntries a ig rest sp dp quar fs1 := rfl

/-! ## Frame lemmas: what the walk cannot touch

The walk writes only under the destination directory, under the
quarantine directory, and under the non-ignored source entries.  A path
`p` outside that footprint that holds a node keeps it. -/

theorem frame_some (a : String) (ig : List String) : ∀ N : Nat,
    (∀ e : SrcEntry, sizeOf e ≤ N →
      ∀ (sp dp : Path) (quar : Option Path) (fs fs' : FS) (p : Path) (n : Node),
      processEntry a ig e sp dp quar fs = .ok fs' →
      dp.isPrefixOf p = false →
      (∀ q, quar = some q → q.isPrefixOf p = false) →
      (e.name ∉ ig → (sp ++ [e.name]).isPrefixOf p = false) →
      fs p = some n → fs' p = some n) ∧
    (∀ l : List SrcEntry, sizeOf l ≤ N →
      ∀ (sp dp : Path) (quar : Option Path) (fs fs' : FS) (p : Path) (n : Node),
      processEntries a ig l sp dp quar fs = .ok fs' →
      dp.isPrefixOf p = false →
      (∀ q, quar = some q → q.isPrefixOf p = false) →
      (∀ e ∈ l, e.name ∉ ig → (sp ++ [e.name]).isPrefixOf p = false) →
      fs p = some n → fs' p = some n) := by
  intro N
  induction N using Nat.strong_induction_on with
  | _ N ih =>
    constructor
    · intro e hsz sp dp quar fs fs' p n hrun H1 H2 H3 hfs
      by_cases hig : e.name ∈ ig
      · rw [processEntry_ignored hig] at hrun
        simp only [Except.ok.injEq] at hrun
        rw [← hrun]
        exact hfs
      · cases e with
        | file fname c =>
          simp only [SrcEntry.name] at hig
          have h3 : (sp ++ [fname]).isPrefixOf p = false := by
            simpa [SrcEntry.name] using H3 hig
          by_cases hskip : a = "skip"
          · subst hskip
            cases hex : FS.exists fs (dp ++ [fname]) with
            | true =>
              cases quar with
              | none =>
                rw [processEntry_file_skip_coll_none hig hex] at hrun
                cases hrun
              | some q =>
                rw [processEntry_file_skip_coll hig hex] at hrun
                simp only [Except.ok.injEq] at hrun
                rw [← hrun]
                exact moveFile_some (ne_of_append_not_prefixOf (H2 q rfl))
                  (ne_self_of_not_prefixOf h3) hfs
            | false =>
              rw [processEntry_file_skip_free hig hex] at hrun
              simp only [Except.ok.injEq] at hrun
              rw [← hrun]
              exact moveFile_some (ne_of_append_not_prefixOf H1)
                (ne_self_of_not_prefixOf h3) hfs
          · by_cases hkeep : a = "keep_both"
            · subst hkeep
              rw [processEntry_file_keep hig] at hrun
              simp only [Except.ok.injEq] at hrun
              rw [← hrun]
              unfold keepBothFiles
              cases htgt : keepBothTarget fs ((sp ++ [fname]).getLast?.getD "") dp with
              | none => exact hfs
              | some t =>
                obtain ⟨s, rfl⟩ := keepBothTarget_shape htgt
                exact moveFile_some (ne_of_append_not_prefixOf H1)
                  (ne_self_of_not_prefixOf h3) hfs
            · rw [processEntry_file_other hig hskip hkeep] at hrun
              simp only [Except.ok.injEq] at hrun
              rw [← hrun]
              exact hfs
        | dir dname children =>
          simp only [SrcEntry.name] at hig
          have h3 : (sp ++ [dname]).isPrefixOf p = false := by
            simpa [SrcEntry.name] using H3 hig
          cases quar with
          | none =>
            rw [processEntry_dir_none hig] at hrun
            cases hrun
          | some q =>
            rw [processEntry_dir_eq hig] at hrun
            cases hinner : processEntries a ig children (sp ++ [dname])
                (dp ++ [dname]) (some (q ++ [dname])) (mkdirAll fs (dp ++ [dname])) with
            | error err =>
              rw [hinner] at hrun
              cases hrun
            | ok fs3 =>
              rw [hinner] at hrun
              simp only [Except.ok.injEq] at hrun
              rw [← hrun, rmtree_eq_of_not_prefix h3]
              have hszc : sizeOf children < N := by
                have := hsz
                simp only [SrcEntry.dir.sizeOf_spec] at this
                omega
              exact (ih (sizeOf children) hszc).2 children le_rfl
                (sp ++ [dname]) (dp ++ [dname]) (some (q ++ [dname])) _ fs3 p n
                hinner (isPrefixOf_false_mono [dname] H1)
                (fun q' hq' => by
                  cases hq'
                  exact isPrefixOf_false_mono [dname] (H2 q rfl))
                (fun e' _ _ => isPrefixOf_false_mono [e'.name] h3)
                (mkdirAll_some hfs)
    · intro l hsz sp dp quar fs fs' p n hrun H1 H2 H3 hfs
      cases l with
      | nil =>
        rw [processEntries_nil] at hrun
        simp only [Except.ok.injEq] at hrun
        rw [← hrun]
        exact hfs
      | cons e rest =>
        rw [processEntries_cons] at hrun
        cases hhead : processEntry a ig e sp dp quar fs with
        | error err =>
          rw [hhead] at hrun
          cases hrun
        | ok fs1 =>
          rw [hhead] at hrun
          have hsze : sizeOf e < N := by
            have := hsz
            simp only [List.cons.sizeOf_spec] at this
            omega
          have hszr : sizeOf rest < N := by
            have := hsz
            simp only [List.cons.sizeOf_spec] at this
            omega
          have hfs1 : fs1 p = some n :=
            (ih (sizeOf e) hsze).1 e le_rfl sp dp quar fs fs1 p n hhead H1 H2
              (fun hn => H3 e (List.mem_cons_self e rest) hn) hfs
          exact (ih (sizeOf rest) hszr).2 rest le_rfl sp dp quar fs1 fs' p n
            hrun H1 H2 (fun e' he' hn => H3 e' (List.mem_cons_of_mem _ he') hn) hfs1

theorem moveFile_none_concat {fs : FS} {s t p : Path} {x : String}
    (hd : t.isPrefixOf p = false) (hdp : p.isPrefixOf t = false)
    (h : fs p = none) : moveFile fs s (t ++ [x]) p = none := by
  apply moveFile_none (ne_of_append_not_prefixOf hd) ?_ h
  simpa using hdp

/-- A path that is absent, not below the destination or quarantine
cones, and not an ancestor of either cone, stays absent: every creation
the walk performs happens inside those cones or on their ancestor
chains. -/
theorem frame_none (a : String) (ig : List String) : ∀ N : Nat,
    (∀ e : SrcEntry, sizeOf e ≤ N →
      ∀ (sp dp : Path) (quar : Option Path) (fs fs' : FS) (p : Path),
      processEntry a ig e sp dp quar fs = .ok fs' →
      dp.isPrefixOf p = false →
      (∀ q, quar = some q → q.isPrefixOf p = false) →
      p.isPrefixOf dp = false →
      (∀ q, quar = some q → p.isPrefixOf q = false) →
      fs p = none → fs' p = none) ∧
    (∀ l : List SrcEntry, sizeOf l ≤ N →
      ∀ (sp dp : Path) (quar : Option Path) (fs fs' : FS) (p : Path),
      processEntries a ig l sp dp quar fs = .ok fs' →
      dp.isPrefixOf p = false →
      (∀ q, quar = some q → q.isPrefixOf p = false) →
      p.isPrefixOf dp = false →
      (∀ q, quar = some q → p.isPrefixOf q = false) →
      fs p = none → fs' p = none) := by
  intro N
  induction N using Nat.strong_induction_on with
  | _ N ih =>
    constructor
    · intro e hsz sp dp quar fs fs' p hrun H1 H2 H3 H4 hfs
      by_cases hig : e.name ∈ ig
      · rw [processEntry_ignored hig] at hrun
        simp only [Except.ok.injEq] at hrun
        rw [← hrun]
        exact hfs
      · cases e with
        | file fname c =>
          simp only [SrcEntry.name] at hig
          by_cases hskip : a = "skip"
          · subst hskip
            cases hex : FS.exists fs (dp ++ [fname]) with
            | true =>
              cases quar with
              | none =>
                rw [processEntry_file_skip_coll_none hig hex] at hrun
                cases hrun
              | some q =>
                rw [processEntry_file_skip_coll hig hex] at hrun
                simp only [Except.ok.injEq] at hrun
                rw [← hrun]
                exact moveFile_none_concat (H2 q rfl) (H4 q rfl) hfs
            | false =>
              rw [processEntry_file_skip_free hig hex] at hrun
              simp only [Except.ok.injEq] at hrun
              rw [← hrun]
              exact moveFile_none_concat H1 H3 hfs
          · by_cases hkeep : a = "keep_both"
            · subst hkeep
              rw [processEntry_file_keep hig] at hrun
              simp only [Except.ok.injEq] at hrun
              rw [← hrun]
              unfold keepBothFiles
              cases htgt : keepBothTarget fs ((sp ++ [fname]).getLast?.getD "") dp with
              | none => exact hfs
              | some t =>
                obtain ⟨s, rfl⟩ := keepBothTarget_shape htgt
                exact moveFile_none_concat H1 H3 hfs
            · rw [processEntry_file_other hig hskip hkeep] at hrun
              simp only [Except.ok.injEq] at hrun
              rw [← hrun]
              exact hfs
        | dir dname children =>
          simp only [SrcEntry.name] at hig
          cases quar with
          | none =>
            rw [processEntry_dir_none hig] at hrun
            cases hrun
          | some q =>
            rw [processEntry_dir_eq hig] at hrun
            cases hinner : processEntries a ig children (sp ++ [dname])
                (dp ++ [dname]) (some (q ++ [dname])) (mkdirAll fs (dp ++ [dname])) with
            | error err =>
              rw [hinner] at hrun
              cases hrun
            | ok fs3 =>
              rw [hinner] at hrun
              simp only [Except.ok.injEq] at hrun
              rw [← hrun]
              apply rmtree_none
              have hszc : sizeOf children < N := by
                have := hsz
                simp only [SrcEntry.dir.sizeOf_spec] at this
                omega
              exact (ih (sizeOf children) hszc).2 children le_rfl
                (sp ++ [dname]) (dp ++ [dname]) (some (q ++ [dname])) _ fs3 p
                hinner (isPrefixOf_false_mono [dname] H1)
                (fun q' hq' => by
                  cases hq'
                  exact isPrefixOf_false_mono [dname] (H2 q rfl))
                (not_prefix_concat H1 H3)
                (fun q' hq' => by
                  cases hq'
                  exact not_prefix_concat (H2 q rfl) (H4 q rfl))
                (mkdirAll_none_of (not_prefix_concat H1 H3) hfs)
    · intro l hsz sp dp quar fs fs' p hrun H1 H2 H3 H4 hfs
      cases l with
      | nil =>
        rw [processEntries_nil] at hrun
        simp only [Except.ok.injEq] at hrun
        rw [← hrun]
        exact hfs
      | cons e rest =>
        rw [processEntries_cons] at hrun
        cases hhead : processEntry a ig e sp dp quar fs with
        | error err =>
          rw [hhead] at hrun
          cases hrun
        | ok fs1 =>
          rw [hhead] at hrun
          have hsze : sizeOf e < N := by
            have := hsz
            simp only [List.cons.sizeOf_spec] at this
            omega
          have hszr : sizeOf rest < N := by
            have := hsz
            simp only [List.cons.sizeOf_spec] at this
            omega
          have hfs1 : fs1 p = none :=
            (ih (sizeOf e) hsze).1 e le_rfl sp dp quar fs fs1 p hhead H1 H2 H3 H4 hfs
          exact (ih (sizeOf rest) hszr).2 rest le_rfl sp dp quar fs1 fs' p
            hrun H1 H2 H3 H4 hfs1

/-- After an error-free walk of a listing containing a non-ignored
subdirectory entry, nothing is left anywhere below that subdirectory's
source path: the walk ends its processing with an unconditional
`rmtree`, and the rest of the walk cannot recreate anything there. -/
theorem processEntries_subtree_deleted (a : String) (ig : List String) :
    ∀ (l : List SrcEntry) (sp dp : Path) (quar : Option Path) (fs fs' : FS)
      (dname : String) (children : List SrcEntry),
    processEntries a ig l sp dp quar fs = .ok fs' →
    SrcEntry.dir dname children ∈ l → dname ∉ ig →
    (sp ++ [dname]).isPrefixOf dp = false →
    dp.isPrefixOf (sp ++ [dname]) = false →
    (∀ q, quar = some q → (sp ++ [dname]).isPrefixOf q = false) →
    (∀ q, quar = some q → q.isPrefixOf (sp ++ [dname]) = false) →
    ∀ p, (sp ++ [dname]).isPrefixOf p = true → fs' p = none := by
  intro l
  induction l with
  | nil =>
    intro sp dp quar fs fs' dname children hrun hmem
    simp at hmem
  | cons e rest ihl =>
    intro sp dp quar fs fs' dname children hrun hmem hig Hsd Hds Hsq Hqs p hp
    have hdp_p : dp.isPrefixOf p = false := not_prefix_trans_left Hds Hsd hp
    have hq_p : ∀ q, quar = some q → q.isPrefixOf p = false :=
      fun q hq => not_prefix_trans_left (Hqs q hq) (Hsq q hq) hp
    have hp_dp : p.isPrefixOf dp = false := not_rev_prefix_trans Hsd hp
    have hp_q : ∀ q, quar = some q → p.isPrefixOf q = false :=
      fun q hq => not_rev_prefix_trans (Hsq q hq) hp
    rw [processEntries_cons] at hrun
    cases hhead : processEntry a ig e sp dp quar fs with
    | error err =>
      rw [hhead] at hrun
      cases hrun
    | ok fs1 =>
      rw [hhead] at hrun
      rcases List.mem_cons.mp hmem with he | hrest
      · rw [← he] at hhead
        cases quar with
        | none =>
          rw [processEntry_dir_none hig] at hhead
          cases hhead
        | some q =>
          rw [processEntry_dir_eq hig] at hhead
          cases hinner : processEntries a ig children (sp ++ [dname])
              (dp ++ [dname]) (some (q ++ [dname])) (mkdirAll fs (dp ++ [dname])) with
          | error err =>
            rw [hinner] at hhead
            cases hhead
          | ok fs3 =>
            rw [hinner] at hhead
            simp only [Except.ok.injEq] at hhead
            have hfs1 : fs1 p = none := by
              rw [← hhead]
              exact rmtree_eq_none hp
            exact (frame_none a ig (sizeOf rest)).2 rest le_rfl sp dp (some q)
              fs1 fs' p hrun hdp_p hq_p hp_dp hp_q hfs1
      · exact ihl sp dp quar fs1 fs' dname children hrun hrest hig Hsd Hds Hsq Hqs p hp

/-! ## The same facts lifted to `backupFiles` (with its prologue) -/

theorem backupFiles_frame_some {a : String} {ig : List String}
    {entries : List SrcEntry} {sp dp : Path} {quar : Option Path}
    {fs fs' : FS} {p : Path} {n : Node}
    (hrun : backupFiles a ig entries sp dp quar fs = .ok fs')
    (H1 : dp.isPrefixOf p = false)
    (H2 : ∀ q, quar = some q → q.isPrefixOf p = false)
    (H3 : ∀ e ∈ entries, e.name ∉ ig → (sp ++ [e.name]).isPrefixOf p = false)
    (hfs : fs p = some n) : fs' p = some n := by
  unfold backupFiles at hrun
  refine (frame_some a ig (sizeOf entries)).2 entries le_rfl sp dp quar _ fs' p n
    hrun H1 H2 H3 ?_
  split
  · exact hfs
  · exact mkdirAll_some hfs

theorem backupFiles_subtree_deleted {a : String} {ig : List String}
    {entries : List SrcEntry} {sp dp : Path} {quar : Option Path}
    {fs fs' : FS} {dname : String} {children : List SrcEntry}
    (hrun : backupFiles a ig entries sp dp quar fs = .ok fs')
    (hmem : SrcEntry.dir dname children ∈ entries) (hig : dname ∉ ig)
    (Hsd : (sp ++ [dname]).isPrefixOf dp = false)
    (Hds : dp.isPrefixOf (sp ++ [dname]) = false)
    (Hsq : ∀ q, quar = some q → (sp ++ [dname]).isPrefixOf q = false)
    (Hqs : ∀ q, quar = some q → q.isPrefixOf (sp ++ [dname]) = false) :
    ∀ p, (sp ++ [dname]).isPrefixOf p = true → fs' p = none := by
  unfold backupFiles at hrun
  exact processEntries_subtree_deleted a ig entries sp dp quar _ fs' dname children
    hrun hmem hig Hsd Hds Hsq Hqs

/-! ## Facts about path resolution and `isSubFolder` -/

theorem isSubFolder_iff (r c : Path) :
    isSubFolder r c = true ↔
      resolve c = resolve r ∨ ∃ t, t ≠ [] ∧ resolve c = resolve r ++ t := by
  unfold isSubFolder
  rw [List.isPrefixOf_iff_prefix]
  constructor
  · intro h
    obtain ⟨t, ht⟩ := h
    cases t with
    | nil =>
      left
      rw [← ht, List.append_nil]
    | cons a t =>
      right
      exact ⟨a :: t, by simp, ht.symm⟩
  · intro h
    rcases h with h | ⟨t, _, h⟩
    · rw [h]
    · rw [h]
      exact List.prefix_append _ _

theorem isSubFolder_parent_false {r par : Path} {x : String}
    (h : resolve r = resolve par ++ [x]) : isSubFolder r par = false := by
  unfold isSubFolder
  rw [Bool.eq_false_iff]
  intro hpre
  rw [List.isPrefixOf_iff_prefix] at hpre
  have hlen := hpre.length_le
  rw [h] at hlen
  simp at hlen

theorem isSubFolder_refl (r : Path) : isSubFolder r r = true := by
  unfold isSubFolder
  exact isPrefixOf_self _

theorem resolve_child (r : Path) {x : String} (h1 : x ≠ ".") (h2 : x ≠ "..") :
    resolve (r ++ [x]) = resolve r ++ [x] := by
  unfold resolve
  rw [List.foldl_append]
  simp [resolveStep, h1, h2]

theorem isSubFolder_child (r : Path) {x : String} (h1 : x ≠ ".") (h2 : x ≠ "..") :
    isSubFolder r (r ++ [x]) = true := by
  unfold isSubFolder
  rw [resolve_child r h1 h2]
  exact isPrefixOf_append_singleton _ _

/-! ## Facts about the numeric-suffix allocations -/

theorem skippedFolderPath_first {fs : FS} {P : Path} {j : Nat}
    (h1 : 1 ≤ j) (h2 : j ≤ 99)
    (hfree : FS.exists fs (withNameSuffix P (".skipped" ++ toString j)) = false)
    (htaken : ∀ i, 1 ≤ i → i < j →
      FS.exists fs (withNameSuffix P (".skipped" ++ toString i)) = true) :
    skippedFolderPath fs P = some (withNameSuffix P (".skipped" ++ toString j)) := by
  unfold skippedFolderPath
  apply findSome?_range'_first 1 99 j h1 (by omega)
  · simp [hfree]
  · intro i hi hij
    simp [htaken i hi hij]

theorem skippedFolderPath_exhausted {fs : FS} {P : Path}
    (h : ∀ i, 1 ≤ i → i ≤ 99 →
      FS.exists fs (withNameSuffix P (".skipped" ++ toString i)) = true) :
    skippedFolderPath fs P = none := by
  unfold skippedFolderPath
  apply findSome?_eq_none_of
  intro i hi
  rw [List.mem_range'_1] at hi
  simp [h i hi.1 (by omega)]

theorem keepBothTarget_first {fs : FS} {nm : String} {D : Path} {j : Nat}
    (h2 : 2 ≤ j) (h99 : j ≤ 99)
    (hfull : FS.exists fs (D ++ [nm]) = true)
    (htaken : ∀ i, 2 ≤ i → i < j →
      FS.exists fs (D ++ [keepBothName nm i]) = true)
    (hfree : FS.exists fs (D ++ [keepBothName nm j]) = false) :
    keepBothTarget fs nm D = some (D ++ [keepBothName nm j]) := by
  unfold keepBothTarget
  rw [if_pos hfull]
  apply findSome?_range'_first 2 98 j h2 (by omega)
  · simp [hfree]
  · intro i hi hij
    simp [htaken i hi hij]

theorem keepBothTarget_exhausted {fs : FS} {nm : String} {D : Path}
    (hfull : FS.exists fs (D ++ [nm]) = true)
    (h : ∀ i, 2 ≤ i → i ≤ 99 →
      FS.exists fs (D ++ [keepBothName nm i]) = true) :
    keepBothTarget fs nm D = none := by
  unfold keepBothTarget
  rw [if_pos hfull]
  apply findSome?_eq_none_of
  intro i hi
  rw [List.mem_range'_1] at hi
  simp [h i hi.1 (by omega)]

theorem keepBothFiles_exhausted {fs : FS} {sourceFile : Path} {D : Path}
    (hfull : FS.exists fs (D ++ [sourceFile.getLast?.getD ""]) = true)
    (h : ∀ i, 2 ≤ i → i ≤ 99 →
      FS.exists fs (D ++ [keepBothName (sourceFile.getLast?.getD "") i]) = true) :
    keepBothFiles fs sourceFile D = fs := by
  unfold keepBothFiles
  rw [keepBothTarget_exhausted hfull h]

/-! ## Concrete filesystems used by witnesses and counterexamples -/

/-- A filesystem in which every path exists (as a directory); it
exercises every exhaustion branch at once. -/
def fsAll : FS := fun _ => some Node.dir

/-- Destination already holds `file.txt`, `file 2.txt` and `file 3.txt`. -/
def fsC5 : FS := fun p =>
  if p = ["dst", "file.txt"] ∨ p = ["dst", "file 2.txt"] ∨ p = ["dst", "file 3.txt"]
  then some (Node.file 0) else none

/-- `foo` and `foo.skipped1` exist; `foo.skipped2` does not. -/
def fsC6 : FS := fun p =>
  if p = ["root", "foo"] ∨ p = ["root", "foo.skipped1"] then some Node.dir else none

/-! ## Claim C5 -/

/-- C5: the keep-both allocation, given destination directory `D` and a
file with stem `S` and extension `E` (so full name `nm` with
`splitExt nm = (S, E)`), targets `D/nm` when it does not exist, and
otherwise the first free `D/"{S} {i}{E}"` for `i` from 2 to 99 (the
candidate name being `keepBothName nm i`); consequently it never
returns a path that exists at call time, and with collisions
`nm, keepBothName nm 2, …, keepBothName nm N` present (N ≤ 98, taking
`j = N+1` free) it returns `D/keepBothName nm (N+1)`. -/
theorem C5_keepboth_allocation :
    (∀ (nm S E : String) (i : Nat), splitExt nm = (S, E) →
      keepBothName nm i = S ++ " " ++ toString i ++ E) ∧
    (∀ (fs : FS) (D : Path) (nm : String),
      FS.exists fs (D ++ [nm]) = false →
      keepBothTarget fs nm D = some (D ++ [nm])) ∧
    (∀ (fs : FS) (D : Path) (nm : String) (t : Path),
      keepBothTarget fs nm D = some t → FS.exists fs t = false) ∧
    (∀ (fs : FS) (D : Path) (nm : String) (j : Nat),
      2 ≤ j → j ≤ 99 →
      FS.exists fs (D ++ [nm]) = true →
      (∀ i, 2 ≤ i → i < j → FS.exists fs (D ++ [keepBothName nm i]) = true) →
      FS.exists fs (D ++ [keepBothName nm j]) = false →
      keepBothTarget fs nm D = some (D ++ [keepBothName nm j])) := by
  refine ⟨?_, ?_, ?_, ?_⟩
  · intro nm S E i h
    unfold keepBothName
    rw [h]
  · intro fs D nm h
    unfold keepBothTarget
    simp [h]
  · intro fs D nm t h
    exact keepBothTarget_not_exists h
  · intro fs D nm j h2 h99 hfull ht hf
    exact keepBothTarget_first h2 h99 hfull ht hf

/-- Witness for C5: three collisions `file.txt`, `file 2.txt`,
`file 3.txt` make the allocation return `file 4.txt`. -/
theorem C5_witness :
    keepBothTarget fsC5 "file.txt" ["dst"] = some ["dst", "file 4.txt"] := by
  have h := C5_keepboth_allocation.2.2.2 fsC5 ["dst"] "file.txt" 4
    (by omega) (by omega) (by decide)
    (by intro i h1 h2; interval_cases i <;> decide) (by decide)
  rw [show keepBothName "file.txt" 4 = "file 4.txt" by decide] at h
  exact h

/-! ## Claim C6 -/

/-- C6: quarantine-path allocation for a directory path `P` returns
`P.skipped{j}` for the smallest `j` in `[1, 99]` whose candidate does
not exist at allocation time (all smaller candidates existing). -/
theorem C6_quarantine_allocation :
    ∀ (fs : FS) (P : Path) (j : Nat),
      1 ≤ j → j ≤ 99 →
      (∀ i, 1 ≤ i → i < j →
        FS.exists fs (withNameSuffix P (".skipped" ++ toString i)) = true) →
      FS.exists fs (withNameSuffix P (".skipped" ++ toString j)) = false →
      skippedFolderPath fs P = some (withNameSuffix P (".skipped" ++ toString j)) :=
  fun _ _ _ h1 h2 ht hf => skippedFolderPath_first h1 h2 hf ht

/-- Witness for C6: with `foo` and `foo.skipped1` existing, allocation
returns `foo.skipped2`. -/
theorem C6_witness :
    skippedFolderPath fsC6 ["root", "foo"] = some ["root", "foo.skipped2"] := by
  have h := C6_quarantine_allocation fsC6 ["root", "foo"] 2 (by omega) (by omega)
    (by intro i h1 h2; interval_cases i; decide) (by decide)
  rw [show withNameSuffix ["root", "foo"] (".skipped" ++ toString 2)
      = ["root", "foo.skipped2"] by decide] at h
  exact h

/-! ## Claim C4 -/

/-- C4 (code defect, shown at the failing input `fsAll`, where every
candidate exists): the quarantine allocation returns `None` instead of
signalling an explicit exhaustion error, the keep-both dispatch
silently does nothing, and the `None` quarantine path later surfaces
as an unrelated `TypeError` when the skip branch uses it — the code
never raises the `ExhaustedError` the specification requires. -/
theorem C4_exhaustion_behavior :
    skippedFolderPath fsAll ["s", "j"] = none ∧
    keepBothFiles fsAll ["s", "j", "a.txt"] ["d"] = fsAll ∧
    processEntry "skip" [] (.file "a.txt" 0) ["s"] ["d"] none fsAll
      = .error .typeError :=
  ⟨rfl, rfl, rfl⟩

/-! ## Claim C9 -/

/-- C9: `isSubFolder root candidate` resolves both paths and returns
true iff the candidate's canonical form equals the root's or is a
descendant of it; in particular it is false for the root's parent
directory, true for the root itself, and true for a child segment
(while `..`-containing inputs that resolve back inside the root are
covered by the iff). -/
theorem C9_isSubFolder_spec :
    (∀ r c : Path, isSubFolder r c = true ↔
      resolve c = resolve r ∨ ∃ t, t ≠ [] ∧ resolve c = resolve r ++ t) ∧
    (∀ (r par : Path) (x : String), resolve r = resolve par ++ [x] →
      isSubFolder r par = false) ∧
    (∀ r : Path, isSubFolder r r = true) ∧
    (∀ (r : Path) (x : String), x ≠ "." → x ≠ ".." →
      isSubFolder r (r ++ [x]) = true) :=
  ⟨isSubFolder_iff, fun _ _ _ h => isSubFolder_parent_false h, isSubFolder_refl,
    fun r _ h1 h2 => isSubFolder_child r h1 h2⟩

/-- Witness for C9: the parent of the root is rejected, the root and a
child are accepted, and a `..`-containing path that resolves back under
the root is accepted. -/
theorem C9_witness :
    isSubFolder ["a", "b"] ["a"] = false ∧
    isSubFolder ["a", "b"] ["a", "b"] = true ∧
    isSubFolder ["a", "b"] ["a", "b", "c"] = true ∧
    isSubFolder ["a", "b"] ["a", "b", "c", "..", "d"] = true :=
  ⟨C9_isSubFolder_spec.2.1 ["a", "b"] ["a"] "b" (by decide),
   C9_isSubFolder_spec.2.2.1 ["a", "b"],
   C9_isSubFolder_spec.2.2.2 ["a", "b"] "c" (by decide) (by decide),
   (C9_isSubFolder_spec.1 ["a", "b"] ["a", "b", "c", "..", "d"]).mpr
     (Or.inr ⟨["d"], by decide, by decide⟩)⟩

/-! ## Claim C10 -/

/-- C10: when the job's `fileExistsAction` string is neither `"skip"`
nor `"keep_both"`, the per-file dispatch for a regular (non-ignored)
file silently does nothing: no move, no error, filesystem unchanged
(the file stays at its source path, though an enclosing subdirectory's
forced delete can still destroy it), and the loop simply proceeds to
the remaining entries. -/
theorem C10_unknown_action_noop :
    ∀ (a : String) (ig : List String) (fname : String) (c : Nat)
      (rest : List SrcEntry) (sp dp : Path) (quar : Option Path) (fs : FS),
    fname ∉ ig → a ≠ "skip" → a ≠ "keep_both" →
    processEntry a ig (.file fname c) sp dp quar fs = .ok fs ∧
    processEntries a ig (.file fname c :: rest) sp dp quar fs
      = processEntries a ig rest sp dp quar fs := by
  intro a ig fname c rest sp dp quar fs hig h1 h2
  have he : processEntry a ig (.file fname c) sp dp quar fs = .ok fs :=
    processEntry_file_other hig h1 h2
  refine ⟨he, ?_⟩
  rw [processEntries_cons, he]

/-- Witness for C10: a job configured with the unrecognized action
`"move"` leaves the file in place with no error. -/
theorem C10_witness :
    processEntry "move" [] (.file "a.txt" 1) ["s"] ["d"] none fsAll = .ok fsAll ∧
    processEntries "move" [] [.file "a.txt" 1] ["s"] ["d"] none fsAll
      = processEntries "move" [] [] ["s"] ["d"] none fsAll :=
  C10_unknown_action_noop "move" [] "a.txt" 1 [] ["s"] ["d"] none fsAll
    (by simp) (by decide) (by decide)

/-! ## Claim C7 -/

theorem append_singleton_ne {a b : Path} {x : String} (h : a ≠ b) :
    a ++ [x] ≠ b ++ [x] := fun he => h (by simpa using he)

theorem append_singleton_not_prefixOf (t : Path) (x : String) :
    (t ++ [x]).isPrefixOf t = false := by
  rw [Bool.eq_false_iff]
  intro h
  rw [List.isPrefixOf_iff_prefix] at h
  have := h.length_le
  simp at this

/-- C7: under the Skip policy, for a regular non-ignored source file
entry holding content `c`: if nothing exists at `destDir/name` the file
is moved there (and vanishes from the source); otherwise the
pre-existing destination entry is left unchanged, the file is moved to
`quarantineDir/name`, and the quarantine directory with all its
ancestors exists afterwards.  The aliasing hypotheses (`sp ≠ dp`,
`q ≠ dp`, `sp ≠ q`, source file not an ancestor of `q`) hold in every
real configuration, where source and destination live under different
roots and the quarantine directory is a fresh sibling of the source
folder. -/
theorem C7_skip_policy :
    ∀ (ig : List String) (fname : String) (c : Nat) (sp dp q : Path)
      (fs : FS) (n : Node),
    fname ∉ ig → sp ≠ dp →
    fs (sp ++ [fname]) = some (Node.file c) →
    ((FS.exists fs (dp ++ [fname]) = false →
      processEntry "skip" ig (.file fname c) sp dp (some q) fs
        = .ok (moveFile fs (sp ++ [fname]) (dp ++ [fname]))
      ∧ moveFile fs (sp ++ [fname]) (dp ++ [fname]) (dp ++ [fname])
          = some (Node.file c)
      ∧ moveFile fs (sp ++ [fname]) (dp ++ [fname]) (sp ++ [fname]) = none)
    ∧ (fs (dp ++ [fname]) = some n → q ≠ dp → sp ≠ q →
      (sp ++ [fname]).isPrefixOf q = false →
      processEntry "skip" ig (.file fname c) sp dp (some q) fs
        = .ok (moveFile fs (sp ++ [fname]) (q ++ [fname]))
      ∧ moveFile fs (sp ++ [fname]) (q ++ [fname]) (dp ++ [fname]) = some n
      ∧ moveFile fs (sp ++ [fname]) (q ++ [fname]) (q ++ [fname])
          = some (Node.file c)
      ∧ moveFile fs (sp ++ [fname]) (q ++ [fname]) (sp ++ [fname]) = none
      ∧ (∀ a2 : Path, a2.isPrefixOf q = true →
          FS.exists (moveFile fs (sp ++ [fname]) (q ++ [fname])) a2 = true))) := by
  intro ig fname c sp dp q fs n hig hspdp hsrc
  constructor
  · intro hex
    refine ⟨processEntry_file_skip_free hig hex, ?_, ?_⟩
    · unfold moveFile
      rw [if_pos rfl]
      have : (dp ++ [fname]).dropLast = dp := by simp
      rw [this]
      exact mkdirAll_some hsrc
    · unfold moveFile
      rw [if_neg (append_singleton_ne hspdp), if_pos rfl]
  · intro hdst hqdp hspq hspfq
    have hex : FS.exists fs (dp ++ [fname]) = true := by
      unfold FS.exists
      rw [hdst]
      rfl
    refine ⟨processEntry_file_skip_coll hig hex, ?_, ?_, ?_, ?_⟩
    · exact moveFile_some (append_singleton_ne (Ne.symm hqdp))
        (append_singleton_ne (Ne.symm hspdp)) hdst
    · unfold moveFile
      rw [if_pos rfl]
      have : (q ++ [fname]).dropLast = q := by simp
      rw [this]
      exact mkdirAll_some hsrc
    · unfold moveFile
      rw [if_neg (append_singleton_ne hspq), if_pos rfl]
    · intro a2 ha2
      have hne1 : a2 ≠ q ++ [fname] := by
        intro he
        rw [he, append_singleton_not_prefixOf] at ha2
        simp at ha2
      have hne2 : a2 ≠ sp ++ [fname] := by
        intro he
        rw [he] at ha2
        rw [ha2] at hspfq
        simp at hspfq
      have hma : moveFile fs (sp ++ [fname]) (q ++ [fname]) a2
          = mkdirAll fs (q ++ [fname]).dropLast a2 := by
        unfold moveFile
        rw [if_neg hne1, if_neg hne2]
      unfold FS.exists
      rw [hma]
      have : (q ++ [fname]).dropLast = q := by simp
      rw [this]
      exact mkdirAll_exists_ancestor ha2

/-- The source/destination state of the end-to-end Skip scenario:
`/s/docs/a.txt` with content 7, a colliding `/d/docs/a.txt` with
content 3. -/
def fsC7 : FS := fun p =>
  if p = ["s", "docs", "a.txt"] then some (Node.file 7)
  else if p = ["d", "docs", "a.txt"] then some (Node.file 3)
  else if p = ["s"] ∨ p = ["s", "docs"] ∨ p = ["d"] ∨ p = ["d", "docs"]
  then some Node.dir
  else none

/-- Witness for C7 (collision branch of the end-to-end scenario): the
destination keeps its original content, the file lands in the
quarantine directory, and the source path is emptied. -/
theorem C7_witness :
    processEntry "skip" [] (.file "a.txt" 7) ["s", "docs"] ["d", "docs"]
      (some ["s", "docs.skipped1"]) fsC7
      = .ok (moveFile fsC7 ["s", "docs", "a.txt"] ["s", "docs.skipped1", "a.txt"]) ∧
    moveFile fsC7 ["s", "docs", "a.txt"] ["s", "docs.skipped1", "a.txt"]
      ["d", "docs", "a.txt"] = some (Node.file 3) ∧
    moveFile fsC7 ["s", "docs", "a.txt"] ["s", "docs.skipped1", "a.txt"]
      ["s", "docs.skipped1", "a.txt"] = some (Node.file 7) ∧
    moveFile fsC7 ["s", "docs", "a.txt"] ["s", "docs.skipped1", "a.txt"]
      ["s", "docs", "a.txt"] = none := by
  have h := (C7_skip_policy [] "a.txt" 7 ["s", "docs"] ["d", "docs"]
    ["s", "docs.skipped1"] fsC7 (Node.file 3) (by simp) (by decide) (by decide)).2
    (by decide) (by decide) (by decide) (by decide)
  exact ⟨h.1, h.2.1, h.2.2.1, h.2.2.2.1⟩

/-! ## Claim C2 -/

/-- Source tree `/s/j/d/ig.txt` (to be ignored) with mirrored
destination `/d/j`. -/
def fsC2 : FS := fun p =>
  if p = ["s", "j", "d", "ig.txt"] then some (Node.file 5)
  else if p = ["s"] ∨ p = ["s", "j"] ∨ p = ["s", "j", "d"]
      ∨ p = ["d"] ∨ p = ["d", "j"] then some Node.dir
  else none

/-- C2 counterexample: the ignored file `ig.txt`, nested inside the
subdirectory `d`, exists before the run; the run completes without
error, yet afterwards the file is gone — destroyed by the forced
recursive delete of `d` — so an ignored file is **not** safe
"regardless of where in the source tree it lies". -/
theorem C2_counterexample :
    fsC2 ["s", "j", "d", "ig.txt"] = some (Node.file 5) ∧
    backupFiles "skip" ["ig.txt"] [SrcEntry.dir "d" [SrcEntry.file "ig.txt" 5]]
      ["s", "j"] ["d", "j"] (some ["s", "j.skipped1"]) fsC2
      = .ok (rmtree (mkdirAll fsC2 ["d", "j", "d"]) ["s", "j", "d"]) ∧
    rmtree (mkdirAll fsC2 ["d", "j", "d"]) ["s", "j", "d"]
      ["s", "j", "d", "ig.txt"] = none :=
  ⟨rfl, rfl, by decide⟩

/-- C2 (amended): a file ignored by name is never moved and never
deleted when it sits at the top level of a reconciliation call
(provided the destination and quarantine directories do not overlay
it); an ignored file nested inside a processed subdirectory is instead
destroyed by the forced recursive delete of that subdirectory. -/
theorem C2_ignored_top_level_preserved :
    ∀ (a : String) (ig : List String) (entries : List SrcEntry)
      (sp dp : Path) (quar : Option Path) (fs fs' : FS)
      (iname : String) (n : Node),
    iname ∈ ig →
    backupFiles a ig entries sp dp quar fs = .ok fs' →
    dp.isPrefixOf (sp ++ [iname]) = false →
    (∀ q, quar = some q → q.isPrefixOf (sp ++ [iname]) = false) →
    fs (sp ++ [iname]) = some n →
    fs' (sp ++ [iname]) = some n := by
  intro a ig entries sp dp quar fs fs' iname n hig hrun H1 H2 hfs
  refine backupFiles_frame_some hrun H1 H2 ?_ hfs
  intro e _ hn
  rw [Bool.eq_false_iff]
  intro hpre
  exact hn (by rw [eq_of_append_singleton_isPrefixOf hpre]; exact hig)

/-- Top-level ignored file `/s/j/ig.txt` together with the mirrored
destination. -/
def fsC2b : FS := fun p =>
  if p = ["s", "j", "ig.txt"] then some (Node.file 5)
  else if p = ["s"] ∨ p = ["s", "j"] ∨ p = ["d"] ∨ p = ["d", "j"]
  then some Node.dir
  else none

/-- Witness for the amended C2: a top-level ignored file survives an
error-free run untouched. -/
theorem C2_witness : fsC2b ["s", "j", "ig.txt"] = some (Node.file 5) :=
  C2_ignored_top_level_preserved "skip" ["ig.txt"] [SrcEntry.file "ig.txt" 5]
    ["s", "j"] ["d", "j"] (some ["s", "j.skipped1"]) fsC2b fsC2b "ig.txt"
    (Node.file 5) (by decide) rfl (by decide)
    (fun q hq => by cases hq; decide) rfl

/-! ## Claim C3 -/

/-- C3: in an error-free run, every non-ignored subdirectory entry's
source tree ends up deleted by the unconditional forced recursive
delete that follows the recursive call — so ignored files that were
inside it are destroyed with it — while a file ignored at the top
level of the call is left in place.  The prefix hypotheses say that the
subdirectory (resp. the ignored file) does not overlap the destination
or quarantine cones, which holds in every real configuration. -/
theorem C3_forced_subtree_delete :
    ∀ (a : String) (ig : List String) (entries : List SrcEntry)
      (sp dp : Path) (quar : Option Path) (fs fs' : FS),
    backupFiles a ig entries sp dp quar fs = .ok fs' →
    ((∀ (dname : String) (children : List SrcEntry),
      SrcEntry.dir dname children ∈ entries → dname ∉ ig →
      (sp ++ [dname]).isPrefixOf dp = false →
      dp.isPrefixOf (sp ++ [dname]) = false →
      (∀ q, quar = some q → (sp ++ [dname]).isPrefixOf q = false) →
      (∀ q, quar = some q → q.isPrefixOf (sp ++ [dname]) = false) →
      ∀ p, (sp ++ [dname]).isPrefixOf p = true → fs' p = none)
    ∧ (∀ (iname : String) (n : Node), iname ∈ ig →
      dp.isPrefixOf (sp ++ [iname]) = false →
      (∀ q, quar = some q → q.isPrefixOf (sp ++ [iname]) = false) →
      fs (sp ++ [iname]) = some n → fs' (sp ++ [iname]) = some n)) := by
  intro a ig entries sp dp quar fs fs' hrun
  constructor
  · intro dname children hmem hig Hsd Hds Hsq Hqs p hp
    exact backupFiles_subtree_deleted hrun hmem hig Hsd Hds Hsq Hqs p hp
  · intro iname n hig H1 H2 hfs
    refine backupFiles_frame_some hrun H1 H2 ?_ hfs
    intro e _ hn
    rw [Bool.eq_false_iff]
    intro hpre
    exact hn (by rw [eq_of_append_singleton_isPrefixOf hpre]; exact hig)

/-- Witness for C3: in the concrete run of `fsC2`, the nested ignored
file is gone after the run (forced delete of `/s/j/d`). -/
theorem C3_witness :
    rmtree (mkdirAll fsC2 ["d", "j", "d"]) ["s", "j", "d"]
      ["s", "j", "d", "ig.txt"] = none := by
  have h := (C3_forced_subtree_delete "skip" ["ig.txt"]
    [SrcEntry.dir "d" [SrcEntry.file "ig.txt" 5]] ["s", "j"] ["d", "j"]
    (some ["s", "j.skipped1"]) fsC2
    (rmtree (mkdirAll fsC2 ["d", "j", "d"]) ["s", "j", "d"]) rfl).1
    "d" [SrcEntry.file "ig.txt" 5] (List.mem_singleton.mpr rfl) (by decide)
    (by decide) (by decide) (fun q hq => by cases hq; decide)
    (fun q hq => by cases hq; decide) ["s", "j", "d", "ig.txt"] (by decide)
  exact h

/-! ## Claim C1 -/

/-- Source file `/s/j/a.txt`; at the destination root `d` every path
exists, so every keep-both candidate name is taken. -/
def fsC1 : FS := fun p =>
  if p = ["s", "j", "a.txt"] then some (Node.file 1)
  else if p.headD "" = "d" then some Node.dir
  else if p = ["s"] ∨ p = ["s", "j"] then some Node.dir
  else none

/-- C1 (code defect, shown at the failing input): under the keep-both
policy with every candidate name taken at the destination, the job run
completes without error — the exhausted allocation loop just falls
through — yet the filesystem is completely unchanged: the non-ignored
source file still exists at its source path and was never moved under
the destination tree, the keep-both names, or the quarantine path. -/
theorem C1_exhausted_keepboth_leaves_source :
    backupFiles "keep_both" [] [SrcEntry.file "a.txt" 1] ["s", "j"] ["d", "j"]
      (some ["s", "j.skipped1"]) fsC1 = .ok fsC1 ∧
    fsC1 ["s", "j", "a.txt"] = some (Node.file 1) :=
  ⟨rfl, rfl⟩

/-! ## Claim C8 -/

/-- C8 (amended): a job whose source or destination fails the
root-containment check is logged and skipped while the run continues
with the remaining jobs unchanged; but there is no per-job exception
handler, so an exception raised while executing a job propagates out of
`startBackup` and aborts the remaining jobs. -/
theorem startBackup_cons {srcRoot dstRoot : Path} {ig : List String}
    {folder : BackupFolder} {entries : List SrcEntry}
    {rest : List (BackupFolder × List SrcEntry)} {fs : FS} :
    startBackup srcRoot dstRoot ig ((folder, entries) :: rest) fs =
      if (isSubFolder srcRoot (srcRoot ++ folder.source)
          && isSubFolder dstRoot (dstRoot ++ folder.destination)) = true then
        if FS.exists fs (srcRoot ++ folder.source) = true then
          match backupFiles folder.fileExistsAction ig entries
              (srcRoot ++ folder.source) (dstRoot ++ folder.destination)
              (skippedFolderPath fs (srcRoot ++ folder.source)) fs with
          | .error e => .error e
          | .ok fs2 => startBackup srcRoot dstRoot ig rest fs2
        else startBackup srcRoot dstRoot ig rest fs
      else startBackup srcRoot dstRoot ig rest fs := rfl

theorem C8_job_isolation :
    ∀ (srcRoot dstRoot : Path) (ig : List String) (folder : BackupFolder)
      (entries : List SrcEntry) (rest : List (BackupFolder × List SrcEntry))
      (fs : FS),
    ((isSubFolder srcRoot (srcRoot ++ folder.source)
        && isSubFolder dstRoot (dstRoot ++ folder.destination)) = false →
      startBackup srcRoot dstRoot ig ((folder, entries) :: rest) fs
        = startBackup srcRoot dstRoot ig rest fs) ∧
    (∀ e : PyError,
      (isSubFolder srcRoot (srcRoot ++ folder.source)
        && isSubFolder dstRoot (dstRoot ++ folder.destination)) = true →
      FS.exists fs (srcRoot ++ folder.source) = true →
      backupFiles folder.fileExistsAction ig entries (srcRoot ++ folder.source)
        (dstRoot ++ folder.destination)
        (skippedFolderPath fs (srcRoot ++ folder.source)) fs = .error e →
      startBackup srcRoot dstRoot ig ((folder, entries) :: rest) fs
        = .error e) := by
  intro srcRoot dstRoot ig folder entries rest fs
  constructor
  · intro hguard
    rw [startBackup_cons, if_neg (by simp [hguard])]
  · intro e hguard hex hfail
    rw [startBackup_cons, if_pos hguard, if_pos hex, hfail]

/-- The two jobs of the C8 scenarios: `badJob` hits the exhausted
quarantine allocation (its source sibling names all exist in `fsAll`)
and then raises `TypeError` on the skip collision; `goodJob` uses an
unrecognized action, so alone it completes without error. -/
def badJob : BackupFolder := ⟨["j"], ["j"], "skip"⟩

def goodJob : BackupFolder := ⟨["k"], ["k"], "zzz"⟩

def invalidJob : BackupFolder := ⟨["..", ".."], ["j"], "skip"⟩

/-- C8 counterexample: with the first job raising an exception while
executing (exhausted quarantine allocation yields `None`, the skip
branch then raises `TypeError`), the whole run aborts with that error,
so the second job — which on its own would have completed — never
runs: a failure while executing one job does **not** leave the
remaining jobs executed. -/
theorem C8_counterexample :
    startBackup ["s"] ["d"] []
      [(badJob, [SrcEntry.file "a" 0]), (goodJob, [SrcEntry.file "b" 0])] fsAll
      = .error .typeError ∧
    startBackup ["s"] ["d"] [] [(goodJob, [SrcEntry.file "b" 0])] fsAll
      = .ok fsAll :=
  ⟨rfl, rfl⟩

/-- Witness for the amended C8: an invalid job (source escaping its
root via `..`) is skipped with the run continuing, and a failing job
aborts the run. -/
theorem C8_witness :
    startBackup ["s"] ["d"] []
      [(invalidJob, []), (goodJob, [SrcEntry.file "b" 0])] fsAll
      = startBackup ["s"] ["d"] [] [(goodJob, [SrcEntry.file "b" 0])] fsAll ∧
    startBackup ["s"] ["d"] [] [(badJob, [SrcEntry.file "a" 0])] fsAll
      = .error .typeError :=
  ⟨(C8_job_isolation ["s"] ["d"] [] invalidJob []
      [(goodJob, [SrcEntry.file "b" 0])] fsAll).1 (by decide),
   (C8_job_isolation ["s"] ["d"] [] badJob [SrcEntry.file "a" 0] [] fsAll).2
     .typeError (by decide) rfl rfl⟩

end Autobackup
